import Mathlib

/-!
# Verification of the Northwind CSV exporter (`convert.py`)

A shallow embedding of the conversion logic of `convert.py`: the SQLite
value model, the base64 codec used for blob retention, the CSV writer and
reader (modelling the Python `csv` module's default dialect), the row
transformation pipeline (`filterRows`), the per-table export with its
read-back verification (`convertTable`), the download logic with its
partial-file cleanup, and the driver loop.

Machine integers are modelled as `Nat`; byte values carry an explicit
`< 256` bound where it matters.  Fallible Python code (exceptions) is
modelled with `Except PyErr`.
-/

namespace Northwind

/-- The Python exception kinds the modelled code can raise. -/
inductive PyErr
  /-- `TypeError`, e.g. `b64encode(None)`. -/
  | typeError
  /-- `ValueError`, e.g. `list.index` on a missing element. -/
  | valueError
  /-- `AssertionError` from the CSV read-back check. -/
  | assertionError
  /-- `IndexError` from `table[i]` past the end. -/
  | indexError
  /-- `StopIteration` from `next(reader)` on an empty file. -/
  | stopIteration
  /-- `RuntimeError` raised by `download`/`downloadNorthwind`. -/
  | runtimeError
  deriving DecidableEq, Repr

/-- A SQLite value as surfaced by Python's `sqlite3` module: SQL NULL
becomes `None`, INTEGER becomes `int`, TEXT becomes `str`, BLOB becomes
`bytes` (modelled as a list of byte values).  The REAL storage class is
out of scope (floating point). -/
inductive SqlValue
  /-- SQL NULL (Python `None`). -/
  | null
  /-- An INTEGER value (Python `int`). -/
  | intV (i : Int)
  /-- A TEXT value (Python `str`). -/
  | textV (s : String)
  /-- A BLOB value (Python `bytes`), one `Nat` per byte. -/
  | blobV (b : List Nat)
  deriving DecidableEq, Repr

/-- Lower-case hex digit of `n % 16`, as used by Python's `\xHH` escapes. -/
def hexDigit (n : Nat) : Char :=
  if n < 10 then Char.ofNat (48 + n) else Char.ofNat (87 + n)

/-- The escape sequence Python's `bytes.__repr__` produces for one byte,
given the chosen quote character. -/
def pyByteEscape (quote : Char) (b : Nat) : List Char :=
  if b = 92 then ['\\', '\\']
  else if b = 9 then ['\\', 't']
  else if b = 10 then ['\\', 'n']
  else if b = 13 then ['\\', 'r']
  else if b = quote.toNat then ['\\', quote]
  else if 32 ≤ b ∧ b < 127 then [Char.ofNat b]
  else ['\\', 'x', hexDigit (b / 16), hexDigit (b % 16)]

/-- Python `str(bytes)` (= `repr`): `b'...'`, quoting with `'` unless the
bytes contain `'` but no `"`, escaping backslash, tab, newline, carriage
return, the quote character, and non-printable bytes as `\xHH`. -/
def pyReprBytes (b : List Nat) : String :=
  let quote : Char := if b.contains 39 ∧ ¬ b.contains 34 then '"' else '\''
  String.mk ('b' :: quote :: (b.map (pyByteEscape quote)).flatten ++ [quote])

/-- Python `str` on the modelled SQLite values. -/
def pyStr : SqlValue → String
  | .null => "None"
  | .intV i => toString i
  | .textV s => s
  | .blobV b => pyReprBytes b

/-! ## Global configuration constants of `convert.py` -/

/-- `NULL_CONVERT`: the string substituted for SQL NULL (the default is the
empty string). -/
def NULL_CONVERT : String := ""

/-- `BLOBS`: the registry mapping a table name to the name of its blob
column. -/
def BLOBS : List (String × String) := [("Categories", "Picture"), ("Employees", "Photo")]

/-- Python `tableName in BLOBS` followed by `BLOBS[tableName]`: the
registered blob column name of a table, if any. -/
def blobsLookup (tableName : String) : Option String :=
  (BLOBS.find? (fun p => p.1 == tableName)).map (·.2)

/-! ## Base64 (Python `base64.b64encode`)

The standard alphabet, three bytes to four characters, `=`-padded. -/

/-- The standard base64 alphabet. -/
def b64Alphabet : List Char :=
  "ABCDEFGHIJKLMNOPQRSTUVWXYZabcdefghijklmnopqrstuvwxyz0123456789+/".data

/-- The character encoding a 6-bit group. -/
def b64Char (n : Nat) : Char := b64Alphabet.getD n 'A'

/-- The 6-bit value of an alphabet character (decoder side). -/
def b64Val (c : Char) : Option Nat := b64Alphabet.indexOf? c

/-- `base64.b64encode` on a byte list: three bytes become four alphabet
characters; a final group of one or two bytes is padded with `=`. -/
def b64encodeBytes : List Nat → List Char
  | [] => []
  | [b1] => [b64Char (b1 / 4), b64Char (b1 % 4 * 16), '=', '=']
  | [b1, b2] => [b64Char (b1 / 4), b64Char (b1 % 4 * 16 + b2 / 16), b64Char (b2 % 16 * 4), '=']
  | b1 :: b2 :: b3 :: rest =>
      b64Char (b1 / 4) :: b64Char (b1 % 4 * 16 + b2 / 16) ::
      b64Char (b2 % 16 * 4 + b3 / 64) :: b64Char (b3 % 64) :: b64encodeBytes rest

/-- Standard base64 decoding: four characters at a time, honouring `=`
padding in the final group; `none` on malformed input. -/
def b64decodeBytes : List Char → Option (List Nat)
  | [] => some []
  | c1 :: c2 :: c3 :: c4 :: rest =>
    match b64Val c1, b64Val c2 with
    | some v1, some v2 =>
      if c3 = '=' then
        if c4 = '=' ∧ rest = [] then some [v1 * 4 + v2 / 16] else none
      else
        match b64Val c3 with
        | some v3 =>
          if c4 = '=' then
            if rest = [] then some [v1 * 4 + v2 / 16, v2 % 16 * 16 + v3 / 4] else none
          else
            match b64Val c4 with
            | some v4 =>
              (b64decodeBytes rest).map
                (fun bs => (v1 * 4 + v2 / 16) :: (v2 % 16 * 16 + v3 / 4) :: (v3 % 4 * 64 + v4) :: bs)
            | none => none
        | none => none
    | _, _ => none
  | _ => none

/-- Decoding inverts the alphabet on 6-bit values. -/
theorem b64Val_b64Char (n : Nat) (h : n < 64) : b64Val (b64Char n) = some n := by
  interval_cases n <;> decide

/-- No alphabet character is the padding character. -/
theorem b64Char_ne_pad (n : Nat) (h : n < 64) : b64Char n ≠ '=' := by
  interval_cases n <;> decide

/-- Standard base64 decoding inverts `b64encodeBytes` on byte lists. -/
theorem b64decodeBytes_b64encodeBytes (bs : List Nat) (h : ∀ b ∈ bs, b < 256) :
    b64decodeBytes (b64encodeBytes bs) = some bs := by
  induction bs using b64encodeBytes.induct with
  | case1 => rfl
  | case2 b1 =>
    have hb1 : b1 < 256 := h b1 (by simp)
    have h1 : b64Val (b64Char (b1 / 4)) = some (b1 / 4) := b64Val_b64Char _ (by omega)
    have h2 : b64Val (b64Char (b1 % 4 * 16)) = some (b1 % 4 * 16) := b64Val_b64Char _ (by omega)
    simp only [b64encodeBytes, b64decodeBytes, h1, h2, if_pos rfl]
    simp
    omega
  | case3 b1 b2 =>
    have hb1 : b1 < 256 := h b1 (by simp)
    have hb2 : b2 < 256 := h b2 (by simp)
    have h1 : b64Val (b64Char (b1 / 4)) = some (b1 / 4) := b64Val_b64Char _ (by omega)
    have h2 : b64Val (b64Char (b1 % 4 * 16 + b2 / 16)) = some (b1 % 4 * 16 + b2 / 16) :=
      b64Val_b64Char _ (by omega)
    have h3 : b64Val (b64Char (b2 % 16 * 4)) = some (b2 % 16 * 4) := b64Val_b64Char _ (by omega)
    have hne : b64Char (b2 % 16 * 4) ≠ '=' := b64Char_ne_pad _ (by omega)
    simp only [b64encodeBytes, b64decodeBytes, h1, h2, h3, if_neg hne, if_pos rfl]
    simp
    omega
  | case4 b1 b2 b3 rest ih =>
    have hb1 : b1 < 256 := h b1 (by simp)
    have hb2 : b2 < 256 := h b2 (by simp)
    have hb3 : b3 < 256 := h b3 (by simp)
    have hrest : ∀ b ∈ rest, b < 256 := fun b hb => h b (by simp [hb])
    have h1 : b64Val (b64Char (b1 / 4)) = some (b1 / 4) := b64Val_b64Char _ (by omega)
    have h2 : b64Val (b64Char (b1 % 4 * 16 + b2 / 16)) = some (b1 % 4 * 16 + b2 / 16) :=
      b64Val_b64Char _ (by omega)
    have h3 : b64Val (b64Char (b2 % 16 * 4 + b3 / 64)) = some (b2 % 16 * 4 + b3 / 64) :=
      b64Val_b64Char _ (by omega)
    have h4 : b64Val (b64Char (b3 % 64)) = some (b3 % 64) := b64Val_b64Char _ (by omega)
    have hne3 : b64Char (b2 % 16 * 4 + b3 / 64) ≠ '=' := b64Char_ne_pad _ (by omega)
    have hne4 : b64Char (b3 % 64) ≠ '=' := b64Char_ne_pad _ (by omega)
    simp only [b64encodeBytes, b64decodeBytes, h1, h2, h3, h4, if_neg hne3, if_neg hne4,
      ih hrest, Option.map_some]
    simp
    refine ⟨by omega, by omega, by omega⟩

/-! ## CSV writer (Python `csv.writer`, default dialect)

Default dialect: delimiter `,`, quote character `"`, `QUOTE_MINIMAL`,
doubled internal quotes, line terminator `"\r\n"`.  A field is quoted iff
it contains the delimiter, the quote character, or a character of the line
terminator.  A record whose serialisation would be empty (a single empty
field) is written as `""` so it is not mistaken for a blank line. -/

/-- Whether `QUOTE_MINIMAL` quotes this field. -/
def needsQuote (f : List Char) : Bool :=
  f.any (fun c => c = ',' || c = '"' || c = '\r' || c = '\n')

/-- Double every quote character (the writer's internal-quote escaping). -/
def escapeQ : List Char → List Char
  | [] => []
  | c :: cs => if c = '"' then '"' :: '"' :: escapeQ cs else c :: escapeQ cs

/-- Serialise one field, quoting when `QUOTE_MINIMAL` requires it. -/
def writeField (f : List Char) : List Char :=
  if needsQuote f then '"' :: (escapeQ f ++ ['"']) else f

/-- The fields of one record joined with the delimiter. -/
def writeRecBody (r : List (List Char)) : List Char :=
  List.intercalate [','] (r.map writeField)

/-- Serialise one record, with the trailing line terminator; a record that
serialises to the empty string but has a field is written as `""`. -/
def writeRec (r : List (List Char)) : List Char :=
  (if r ≠ [] ∧ writeRecBody r = [] then ['"', '"'] else writeRecBody r) ++ ['\r', '\n']

/-- Serialise a sequence of records (`writer.writerow` in a loop). -/
def writeRecs (recs : List (List (List Char))) : List Char :=
  (recs.map writeRec).flatten

/-! ## CSV reader (Python `csv.reader`, default dialect)

Modelled on writer-producible input: fields are terminated by the
delimiter, by `"\r\n"`, or by the end of input; a quoted field starts with
`"` at field start and doubles internal quotes; a `"\r\n"` at record start
is a blank line and yields no record.  Inputs the writer never produces
(stray characters after a closing quote, a bare `"\r"`) parse to `none`. -/

/-- A character that ends an unquoted field. -/
def isSpecial (c : Char) : Bool := c = ',' || c = '\r' || c = '\n'

/-- Parse the remainder of a quoted field (after the opening quote):
returns the field content and the input after the closing quote.  A
doubled quote is one literal quote. -/
def parseQuoted : List Char → Option (List Char × List Char)
  | [] => none
  | [c] => if c = '"' then some ([], []) else none
  | c1 :: c2 :: cs =>
    if c1 = '"' then
      if c2 = '"' then (parseQuoted cs).map (fun p => ('"' :: p.1, p.2))
      else some ([], c2 :: cs)
    else (parseQuoted (c2 :: cs)).map (fun p => (c1 :: p.1, p.2))

/-- Parse one field from the start: quoted if it begins with `"`, else the
longest prefix free of field terminators. -/
def parseFieldStart : List Char → Option (List Char × List Char)
  | [] => some ([], [])
  | c :: cs =>
    if c = '"' then parseQuoted cs
    else some ((c :: cs).takeWhile (fun x => !isSpecial x),
               (c :: cs).dropWhile (fun x => !isSpecial x))

/-- Parse one record: fields separated by `,`, terminated by `"\r\n"` or
end of input.  The fuel bounds the number of fields. -/
def parseRecAuxF : Nat → List Char → Option (List (List Char) × List Char)
  | 0, _ => none
  | fuel + 1, l =>
    match parseFieldStart l with
    | none => none
    | some (f, rest) =>
      match rest with
      | [] => some ([f], [])
      | c :: rest' =>
        if c = ',' then (parseRecAuxF fuel rest').map (fun p => (f :: p.1, p.2))
        else if c = '\r' then
          match rest' with
          | [] => none
          | d :: rest'' => if d = '\n' then some ([f], rest'') else none
        else none

/-- Parse a sequence of records; a `"\r\n"` at record start is a blank
line and yields no record.  The fuel bounds the number of records. -/
def parseRecsF : Nat → List Char → Option (List (List (List Char)))
  | _, [] => some []
  | 0, _ :: _ => none
  | fuel + 1, c :: cs =>
    if c = '\r' then
      match cs with
      | [] => none
      | d :: cs' => if d = '\n' then parseRecsF fuel cs' else none
    else
      match parseRecAuxF (c :: cs).length (c :: cs) with
      | none => none
      | some (r, rest) => (parseRecsF fuel rest).map (fun rs => r :: rs)

/-- Parse a whole CSV text. -/
def parseRecs (l : List Char) : Option (List (List (List Char))) :=
  parseRecsF l.length l

/-- `csv.writer` on string-valued records. -/
def writeCSV (recs : List (List String)) : String :=
  String.mk (writeRecs (recs.map (·.map String.data)))

/-- `csv.reader` on a whole file's text. -/
def parseCSV (s : String) : Option (List (List String)) :=
  (parseRecs s.data).map (·.map (·.map String.mk))

/-! ## The CSV round trip -/

/-- The input after a field ends at a field terminator or at end of
input. -/
def headTerm (rest : List Char) : Prop :=
  rest = [] ∨ ∃ c cs, rest = c :: cs ∧ isSpecial c = true

/-- A field terminator is not the quote character. -/
theorem headTerm_ne_quote {c : Char} (h : isSpecial c = true) : c ≠ '"' := by
  intro hc
  subst hc
  simp [isSpecial] at h

/-- Parsing a quoted body inverts quote escaping. -/
theorem parseQuoted_escapeQ (f rest : List Char) (h : rest.head? ≠ some '"') :
    parseQuoted (escapeQ f ++ '"' :: rest) = some (f, rest) := by
  induction f with
  | nil =>
    cases rest with
    | nil => rfl
    | cons r rs =>
      have hr : r ≠ '"' := by simpa using h
      simp [escapeQ, parseQuoted, hr]
  | cons c f' ih =>
    by_cases hc : c = '"'
    · subst hc
      simp [escapeQ, parseQuoted, ih]
    · have hne : escapeQ f' ++ '"' :: rest ≠ [] := by simp
      obtain ⟨t, ts, hts⟩ := List.exists_cons_of_ne_nil hne
      simp only [escapeQ, if_neg hc, List.cons_append, hts, parseQuoted, if_neg hc]
      rw [← hts, ih]
      rfl

/-- A run of non-terminator characters is taken whole by `takeWhile`. -/
theorem takeWhile_nonspecial (f rest : List Char) (hf : ∀ c ∈ f, isSpecial c = false)
    (hr : headTerm rest) : (f ++ rest).takeWhile (fun x => !isSpecial x) = f := by
  induction f with
  | nil =>
    rcases hr with h | ⟨c, cs, rfl, hc⟩
    · simp [h]
    · simp [List.takeWhile, hc]
  | cons a f' ih =>
    have ha : isSpecial a = false := hf a (by simp)
    simp only [List.cons_append, List.takeWhile_cons, ha, Bool.not_false, if_true]
    rw [ih (fun c hc => hf c (by simp [hc]))]

/-- `dropWhile` over the same run leaves exactly the terminator suffix. -/
theorem dropWhile_nonspecial (f rest : List Char) (hf : ∀ c ∈ f, isSpecial c = false)
    (hr : headTerm rest) : (f ++ rest).dropWhile (fun x => !isSpecial x) = rest := by
  induction f with
  | nil =>
    rcases hr with h | ⟨c, cs, rfl, hc⟩
    · simp [h]
    · simp [List.dropWhile, hc]
  | cons a f' ih =>
    have ha : isSpecial a = false := hf a (by simp)
    simp only [List.cons_append, List.dropWhile_cons, ha, Bool.not_false, if_true]
    exact ih (fun c hc => hf c (by simp [hc]))

/-- An unquoted field's characters are neither terminators nor quotes. -/
theorem needsQuote_false_forall {f : List Char} (h : needsQuote f = false) :
    ∀ c ∈ f, isSpecial c = false ∧ c ≠ '"' := by
  intro c hc
  simp only [needsQuote, List.any_eq_false] at h
  have := h c hc
  simp only [Bool.or_eq_true, decide_eq_true_eq] at this
  push_neg at this
  constructor
  · simp [isSpecial]
    tauto
  · tauto

/-- Parsing one field inverts `writeField`, up to a field terminator. -/
theorem parseFieldStart_writeField (f rest : List Char) (hr : headTerm rest) :
    parseFieldStart (writeField f ++ rest) = some (f, rest) := by
  by_cases hq : needsQuote f
  · have hrq : rest.head? ≠ some '"' := by
      rcases hr with h | ⟨c, cs, rfl, hc⟩
      · simp [h]
      · simpa using headTerm_ne_quote hc
    simp only [writeField, if_pos hq, List.cons_append, List.append_assoc, List.cons_append,
      parseFieldStart, if_pos rfl]
    exact parseQuoted_escapeQ f rest hrq
  · have hqf : needsQuote f = false := by simpa using hq
    have hq' := needsQuote_false_forall hqf
    have htake := takeWhile_nonspecial f rest (fun c hc => (hq' c hc).1) hr
    have hdrop := dropWhile_nonspecial f rest (fun c hc => (hq' c hc).1) hr
    simp only [writeField, if_neg hq]
    cases f with
    | nil =>
      rcases hr with h | ⟨c, cs, rfl, hc⟩
      · simp [h, parseFieldStart]
      · have hcq : c ≠ '"' := headTerm_ne_quote hc
        simp only [List.nil_append, parseFieldStart, if_neg hcq]
        simp only [List.nil_append] at htake hdrop
        rw [htake, hdrop]
    | cons a f' =>
      have haq : a ≠ '"' := (hq' a (by simp)).2
      simp only [List.cons_append, parseFieldStart, if_neg haq]
      simp only [List.cons_append] at htake hdrop
      rw [htake, hdrop]

/-- `writeRecBody` on a single field. -/
theorem writeRecBody_single (f : List Char) : writeRecBody [f] = writeField f := by
  simp [writeRecBody, List.intercalate]

/-- `writeRecBody` on two or more fields. -/
theorem writeRecBody_cons₂ (f g : List Char) (r : List (List Char)) :
    writeRecBody (f :: g :: r) = writeField f ++ ',' :: writeRecBody (g :: r) := by
  simp [writeRecBody, List.intercalate, List.intersperse]

/-- Parsing one record inverts the record body followed by the line
terminator, given enough fuel for the record's fields. -/
theorem parseRecAuxF_body (r : List (List Char)) (fuel : Nat) (rest : List Char)
    (hne : r ≠ []) (hfuel : r.length ≤ fuel) :
    parseRecAuxF fuel (writeRecBody r ++ '\r' :: '\n' :: rest) = some (r, rest) := by
  induction r generalizing fuel with
  | nil => exact absurd rfl hne
  | cons f r' ih =>
    obtain ⟨fuel', rfl⟩ : ∃ k, fuel = k + 1 := ⟨fuel - 1, by simp at hfuel; omega⟩
    cases r' with
    | nil =>
      have hterm : headTerm ('\r' :: '\n' :: rest) := Or.inr ⟨'\r', '\n' :: rest, rfl, by decide⟩
      rw [writeRecBody_single]
      simp [parseRecAuxF, parseFieldStart_writeField f _ hterm]
    | cons g r'' =>
      rw [writeRecBody_cons₂, List.append_assoc]
      have hterm : headTerm (',' :: (writeRecBody (g :: r'') ++ '\r' :: '\n' :: rest)) :=
        Or.inr ⟨',', _, rfl, by decide⟩
      simp only [List.cons_append, parseRecAuxF, parseFieldStart_writeField f _ hterm]
      rw [if_pos trivial, ih fuel' (by simp) (by simp at hfuel ⊢; omega)]
      rfl

/-- Only the empty field serialises to nothing. -/
theorem writeField_eq_nil_iff (f : List Char) : writeField f = [] ↔ f = [] := by
  constructor
  · intro h
    by_cases hq : needsQuote f
    · simp [writeField, hq] at h
    · simpa [writeField, hq] using h
  · intro h
    subst h
    rfl

/-- A nonempty record with an empty serialisation is the single empty
field. -/
theorem writeRecBody_eq_nil (r : List (List Char)) (hr : r ≠ []) (hb : writeRecBody r = []) :
    r = [[]] := by
  cases r with
  | nil => exact absurd rfl hr
  | cons f r' =>
    cases r' with
    | nil =>
      rw [writeRecBody_single] at hb
      rw [(writeField_eq_nil_iff f).mp hb]
    | cons g r'' =>
      rw [writeRecBody_cons₂] at hb
      simp at hb

/-- The serialised field never starts with a carriage return. -/
theorem writeField_head {f : List Char} {b : Char} {bs : List Char}
    (h : writeField f = b :: bs) : b ≠ '\r' := by
  by_cases hq : needsQuote f
  · simp only [writeField, if_pos hq] at h
    cases h
    decide
  · have hqf : needsQuote f = false := by simpa using hq
    simp only [writeField, if_neg hq] at h
    intro hb
    have hmem : b ∈ f := by rw [h]; simp
    have := (needsQuote_false_forall hqf b hmem).1
    subst hb
    simp [isSpecial] at this

/-- A serialised record starts with something other than a carriage
return (so the reader does not take it for a blank line). -/
theorem writeRec_head (r : List (List Char)) (hr : r ≠ []) :
    ∃ b bs, writeRec r = b :: bs ∧ b ≠ '\r' := by
  by_cases hb : writeRecBody r = []
  · refine ⟨'"', ['"', '\r', '\n'], ?_, by decide⟩
    simp [writeRec, hr, hb]
  · obtain ⟨b, bs, hbs⟩ := List.exists_cons_of_ne_nil hb
    refine ⟨b, bs ++ ['\r', '\n'], ?_, ?_⟩
    · simp only [writeRec, hbs]
      rw [if_neg (by simp)]
      rfl
    · cases r with
      | nil => exact absurd rfl hr
      | cons f r' =>
        cases r' with
        | nil =>
          rw [writeRecBody_single] at hbs
          exact writeField_head hbs
        | cons g r'' =>
          rw [writeRecBody_cons₂] at hbs
          cases hf : writeField f with
          | nil =>
            rw [hf, List.nil_append] at hbs
            cases hbs
            decide
          | cons x xs =>
            rw [hf, List.cons_append] at hbs
            cases hbs
            exact writeField_head hf

/-- Parsing one record inverts `writeRec`, given fuel for its fields. -/
theorem parseRecAuxF_writeRec (r : List (List Char)) (fuel : Nat) (rest : List Char)
    (hne : r ≠ []) (hfuel : r.length ≤ fuel) :
    parseRecAuxF fuel (writeRec r ++ rest) = some (r, rest) := by
  by_cases hb : writeRecBody r = []
  · have hr : r = [[]] := writeRecBody_eq_nil r hne hb
    subst hr
    obtain ⟨fuel', rfl⟩ : ∃ k, fuel = k + 1 := ⟨fuel - 1, by simp at hfuel; omega⟩
    simp [writeRec, hb, parseRecAuxF, parseFieldStart, parseQuoted]
  · have : ¬ (r ≠ [] ∧ writeRecBody r = []) := fun h => hb h.2
    simp only [writeRec, if_neg this, List.append_assoc, List.cons_append, List.nil_append]
    exact parseRecAuxF_body r fuel rest hne hfuel

/-- The record body has at least one character per field beyond the
first. -/
theorem writeRecBody_length (r : List (List Char)) :
    r.length ≤ (writeRecBody r).length + 1 := by
  induction r with
  | nil => simp
  | cons f r' ih =>
    cases r' with
    | nil => simp [writeRecBody_single]
    | cons g r'' =>
      rw [writeRecBody_cons₂]
      simp only [List.length_append, List.length_cons] at ih ⊢
      omega

/-- A serialised record is at least as long as its field count. -/
theorem length_le_writeRec (r : List (List Char)) : r.length ≤ (writeRec r).length := by
  have := writeRecBody_length r
  by_cases hb : r ≠ [] ∧ writeRecBody r = []
  · obtain ⟨h1, h2⟩ := hb
    have := writeRecBody_eq_nil r h1 h2
    subst this
    decide
  · simp only [writeRec, if_neg hb, List.length_append]
    simp only [List.length_cons, List.length_nil]
    omega

/-- The serialised text has at least one character per record. -/
theorem length_le_writeRecs (recs : List (List (List Char))) :
    recs.length ≤ (writeRecs recs).length := by
  induction recs with
  | nil => simp [writeRecs]
  | cons r recs' ih =>
    have h2 : 2 ≤ (writeRec r).length := by
      simp [writeRec, List.length_append]
    simp only [writeRecs, List.map_cons, List.flatten_cons, List.length_append,
      List.length_cons] at ih ⊢
    omega

/-- Parsing a serialised record sequence recovers the records, provided
no record is empty (a zero-field record writes a blank line, which the
reader skips) and there is fuel for each record. -/
theorem parseRecsF_writeRecs (recs : List (List (List Char))) (fuel : Nat)
    (hne : ∀ r ∈ recs, r ≠ []) (hfuel : recs.length ≤ fuel) :
    parseRecsF fuel (writeRecs recs) = some recs := by
  induction recs generalizing fuel with
  | nil =>
    cases fuel <;> rfl
  | cons r recs' ih =>
    obtain ⟨k, rfl⟩ : ∃ k, fuel = k + 1 := ⟨fuel - 1, by simp at hfuel; omega⟩
    have hr : r ≠ [] := hne r (by simp)
    obtain ⟨b, bs, hbs, hbr⟩ := writeRec_head r hr
    have hinput : writeRecs (r :: recs') = b :: (bs ++ writeRecs recs') := by
      simp [writeRecs, hbs]
    rw [hinput]
    simp only [parseRecsF, if_neg hbr]
    have hback : b :: (bs ++ writeRecs recs') = writeRec r ++ writeRecs recs' := by
      rw [hbs]; rfl
    rw [hback]
    have hflen : r.length ≤ (writeRec r ++ writeRecs recs').length := by
      have := length_le_writeRec r
      simp only [List.length_append]
      omega
    rw [parseRecAuxF_writeRec r _ _ hr hflen]
    simp [ih k (fun x hx => hne x (by simp [hx])) (by simp at hfuel; omega)]

/-- The CSV round trip at the string level: reading back a file written
by `writeCSV` yields exactly the records written, provided every record
has at least one field. -/
theorem parseCSV_writeCSV (recs : List (List String)) (hne : ∀ r ∈ recs, r ≠ []) :
    parseCSV (writeCSV recs) = some recs := by
  have hdata : (String.mk (writeRecs (recs.map (·.map String.data)))).data
      = writeRecs (recs.map (·.map String.data)) := rfl
  have hne' : ∀ r ∈ recs.map (·.map String.data), r ≠ [] := by
    intro r hr
    simp only [List.mem_map] at hr
    obtain ⟨r₀, hr₀, rfl⟩ := hr
    simp only [ne_eq, List.map_eq_nil_iff]
    exact hne r₀ hr₀
  have hlen : (recs.map (·.map String.data)).length
      ≤ (writeRecs (recs.map (·.map String.data))).length :=
    length_le_writeRecs _
  simp only [parseCSV, writeCSV, hdata, parseRecs]
  rw [parseRecsF_writeRecs _ _ hne' (by simpa using hlen)]
  have hid : (String.mk ∘ String.data) = id := funext fun s => rfl
  simp [List.map_map, hid]

/-! ## The table converter (`convertTable` and its inner `filterRows`)

The SQL query itself is I/O; the cursor it produces is modelled by its
column-name list (`cur.description`) and its row list.  Each Python
exception becomes an `Except.error`. -/

/-- `base64.b64encode(attr).decode('utf-8')`: succeeds only on a bytes
value; on `None`, `int` or `str` Python raises `TypeError`. -/
def pyB64encode : SqlValue → Except PyErr String
  | .blobV b => .ok (String.mk (b64encodeBytes b))
  | _ => .error .typeError

/-- The blob-retaining comprehension of `filterRows`:
`[attr if i != blobColumn else b64encode(attr).decode('utf-8') for i, attr
in enumerate(row)]`. -/
def encodeBlobRow (blobColumn : Nat) (row : List SqlValue) : Except PyErr (List SqlValue) :=
  row.enum.mapM (fun p =>
    if p.1 = blobColumn then (pyB64encode p.2).map .textV else .ok p.2)

/-- The blob-dropping comprehension of `filterRows`:
`[attr for i, attr in enumerate(row) if i != blobColumn]`. -/
def dropBlobRow (blobColumn : Nat) (row : List SqlValue) : List SqlValue :=
  (row.enum.filter (fun p => p.1 ≠ blobColumn)).map (·.2)

/-- The NULL-substitution comprehension of `filterRows`:
`[str(attr) if attr is not None else NULL_CONVERT for attr in row]`. -/
def nullConvertRow (row : List SqlValue) : List String :=
  row.map (fun attr => if attr = .null then NULL_CONVERT else pyStr attr)

/-- The first (blob-handling) stage of `filterRows`: with a blob column,
either base64-encode that field in every row or drop it from every row;
without one, leave the rows alone. -/
def blobPhase (blobColumn : Option Nat) (keepBlobs : Bool)
    (rows : List (List SqlValue)) : Except PyErr (List (List SqlValue)) :=
  match blobColumn with
  | some bc =>
    if keepBlobs then rows.mapM (encodeBlobRow bc)
    else .ok (rows.map (dropBlobRow bc))
  | none => .ok rows

/-- `filterRows`: the blob stage followed by NULL substitution and
stringification of every remaining field. -/
def filterRows (blobColumn : Option Nat) (keepBlobs : Bool)
    (rows : List (List SqlValue)) : Except PyErr (List (List String)) :=
  (blobPhase blobColumn keepBlobs rows).map (·.map nullConvertRow)

/-- `header.index(BLOBS[tableName])` for a registered table (`ValueError`
if the registered column name is not a column), `None` otherwise. -/
def blobColumnOf (tableName : String) (header : List String) : Except PyErr (Option Nat) :=
  match blobsLookup tableName with
  | some colName =>
    match header.findIdx? (· == colName) with
    | some i => .ok (some i)
    | none => .error .valueError
  | none => .ok none

/-- The header written to the CSV file: the full column-name list, with
the blob column's name deleted (`del header[blobColumn]`) when a blob
column exists and blobs are not kept. -/
def computeHeader (cols : List String) (blobColumn : Option Nat) (keepBlobs : Bool) :
    List String :=
  match blobColumn with
  | some bc => if keepBlobs then cols else cols.eraseIdx bc
  | none => cols

/-- The read-back loop `for i, row in enumerate(reader): assert table[i]
== row`: each parsed row is compared with the table row at its index
(`IndexError` past the end; rows of the table beyond the parsed rows are
not examined). -/
def checkRows : List (List String) → List (List String) → Except PyErr Unit
  | _, [] => .ok ()
  | [], _ :: _ => .error .indexError
  | t :: ts, r :: rs => if t = r then checkRows ts rs else .error .assertionError

/-- `convertTable` on a cursor's columns and rows: locate the blob
column, compute the header, transform the rows, write the CSV text, then
re-parse it and assert the header and each parsed row match.  Returns the
header, the transformed table and the CSV text. -/
def convertTable (tableName : String) (cols : List String) (rows : List (List SqlValue))
    (keepBlobs : Bool) : Except PyErr (List String × List (List String) × String) :=
  match blobColumnOf tableName cols with
  | .error e => .error e
  | .ok blobColumn =>
    let header := computeHeader cols blobColumn keepBlobs
    match filterRows blobColumn keepBlobs rows with
    | .error e => .error e
    | .ok table =>
      let csvText := writeCSV (header :: table)
      match parseCSV csvText with
      | none => .error .assertionError
      | some [] => .error .stopIteration
      | some (header2 :: parsedRows) =>
        if header = header2 then
          match checkRows table parsedRows with
          | .error e => .error e
          | .ok _ => .ok (header, table, csvText)
        else .error .assertionError

/-! ## The download (`download` and `downloadNorthwind`)

The HTTP response is modelled by its status, the chunks delivered before
any mid-stream failure, and that failure (if any).  The destination file
is modelled by its content (`none` = no file at the path); the network is
observed by counting issued GET requests. -/

/-- A streaming HTTP response as `download` consumes it. -/
structure Response where
  /-- The HTTP status code. -/
  status : Nat
  /-- The `Content-Length` header (0 when absent). -/
  contentLength : Nat
  /-- The body chunks that arrive before any failure. -/
  chunks : List (List Nat)
  /-- An error raised while streaming, after the delivered chunks
  (`none` for a clean completion). -/
  streamErr : Option PyErr

/-- The observable outcome of one `download` call. -/
structure DownloadResult where
  /-- The propagated exception, if any. -/
  err : Option PyErr
  /-- The content at `localPath` afterwards (`none` = no file exists). -/
  file : Option (List Nat)
  /-- Warnings printed (the best-effort deletion failure). -/
  warnings : List String
  /-- HTTP GET requests issued. -/
  netCalls : Nat
  deriving DecidableEq, Repr

/-- `download(remoteUrl, localPath)`: issue the GET; raise `RuntimeError`
on a non-200 status before touching the file; otherwise stream the chunks
into the freshly opened file; if an error is raised mid-stream, delete
the partial file (best-effort: when deletion is denied, print a warning
and keep going) and re-raise the original error. -/
def download (resp : Response) (unlinkDenied : Bool) (init : Option (List Nat)) :
    DownloadResult :=
  if resp.status ≠ 200 then
    { err := some .runtimeError, file := init, warnings := [], netCalls := 1 }
  else
    match resp.streamErr with
    | none =>
      { err := none, file := some resp.chunks.flatten, warnings := [], netCalls := 1 }
    | some e =>
      if unlinkDenied then
        { err := some e, file := some resp.chunks.flatten,
          warnings := ["could not delete partial transfer"], netCalls := 1 }
      else
        { err := some e, file := none, warnings := [], netCalls := 1 }

/-- The state of the download directory before a run. -/
structure DirState where
  /-- `exists(DOWNLOAD_DIR)`. -/
  dirPresent : Bool
  /-- `isdir(DOWNLOAD_DIR)` (meaningful when present). -/
  dirIsDir : Bool
  /-- read/write/execute access to the directory. -/
  dirAccessible : Bool

/-- The observable outcome of one `downloadNorthwind` call. -/
structure FetchResult where
  /-- The propagated exception, if any. -/
  err : Option PyErr
  /-- The content at `NORTHWIND_PATH` afterwards. -/
  file : Option (List Nat)
  /-- HTTP GET requests issued. -/
  netCalls : Nat
  /-- Whether `mkdir(DOWNLOAD_DIR)` ran. -/
  madeDir : Bool
  deriving DecidableEq, Repr

/-- `downloadNorthwind()`: create the download directory if absent, fail
on an unusable directory, then download only when `NORTHWIND_PATH` does
not already exist. -/
def downloadNorthwind (d : DirState) (dbFile : Option (List Nat)) (resp : Response)
    (unlinkDenied : Bool) : FetchResult :=
  if d.dirPresent && !d.dirIsDir then
    { err := some .runtimeError, file := dbFile, netCalls := 0, madeDir := false }
  else if d.dirPresent && d.dirIsDir && !d.dirAccessible then
    { err := some .runtimeError, file := dbFile, netCalls := 0, madeDir := false }
  else if dbFile.isNone then
    let r := download resp unlinkDenied dbFile
    { err := r.err, file := r.file, netCalls := r.netCalls, madeDir := !d.dirPresent }
  else
    { err := none, file := dbFile, netCalls := 0, madeDir := !d.dirPresent }

/-! ## The driver (`__main__`)

The driver enumerates the schema's table names, skips the
`sqlite_`-prefixed internal ones, exports each remaining table with blobs
dropped to `<name lower-cased>.csv`, and then exports each blob-registry
table once more with blobs kept to `<name lower-cased>_base64.csv`.  An
export action is (table name, output path, `keepBlobs`). -/

/-- The sequence of `convertTable` invocations the driver performs, given
the catalog's table-name enumeration. -/
def mainExports (schemaTables : List String) : List (String × String × Bool) :=
  (schemaTables.filter (fun t => !t.startsWith "sqlite_")).map
    (fun t => (t, t.toLower ++ ".csv", false))
  ++ BLOBS.map (fun p => (p.1, p.1.toLower ++ "_base64.csv", true))

/-! ## Supporting lemmas about the transform pipeline -/

/-- A successful `mapM` over `Except` preserves length. -/
theorem mapM_ok_length {α β : Type} (f : α → Except PyErr β) :
    ∀ (l : List α) (l' : List β), l.mapM f = .ok l' → l'.length = l.length := by
  intro l
  induction l with
  | nil =>
    intro l' h
    simp only [List.mapM_nil, pure, Except.pure, Except.ok.injEq] at h
    subst h
    rfl
  | cons a l ih =>
    intro l' h
    rw [List.mapM_cons] at h
    cases hfa : f a with
    | error e => rw [hfa] at h; exact absurd h (by simp [Bind.bind, Except.bind])
    | ok b =>
      rw [hfa] at h
      cases hml : l.mapM f with
      | error e => rw [hml] at h; exact absurd h (by simp [Bind.bind, Except.bind])
      | ok bs =>
        rw [hml] at h
        simp only [Bind.bind, Except.bind, pure, Except.pure, Except.ok.injEq] at h
        subst h
        simp [ih bs hml]

/-- A successful `mapM` over `Except` maps each element of the input to
the corresponding element of the output. -/
theorem mapM_ok_get {α β : Type} (f : α → Except PyErr β) :
    ∀ (l : List α) (l' : List β), l.mapM f = .ok l' →
      ∀ (i : Nat) (a : α), l.get? i = some a → ∃ b, f a = .ok b ∧ l'.get? i = some b := by
  intro l
  induction l with
  | nil => intro l' _ i a ha; simp at ha
  | cons x l ih =>
    intro l' h i a ha
    rw [List.mapM_cons] at h
    cases hfa : f x with
    | error e => rw [hfa] at h; exact absurd h (by simp [Bind.bind, Except.bind])
    | ok b =>
      rw [hfa] at h
      cases hml : l.mapM f with
      | error e => rw [hml] at h; exact absurd h (by simp [Bind.bind, Except.bind])
      | ok bs =>
        rw [hml] at h
        simp only [Bind.bind, Except.bind, pure, Except.pure, Except.ok.injEq] at h
        subst h
        cases i with
        | zero =>
          simp only [List.get?_cons_zero, Option.some.injEq] at ha
          subst ha
          exact ⟨b, hfa, rfl⟩
        | succ i' =>
          simp only [List.get?_cons_succ] at ha ⊢
          exact ih bs hml i' a ha

/-- A failing `mapM` over `Except` fails on some element of the input. -/
theorem mapM_error_mem {α β : Type} (f : α → Except PyErr β) :
    ∀ (l : List α) (e : PyErr), l.mapM f = .error e → ∃ a ∈ l, f a = .error e := by
  intro l
  induction l with
  | nil =>
    intro e h
    simp only [List.mapM_nil, pure, Except.pure] at h
    exact absurd h (by simp)
  | cons x l ih =>
    intro e h
    rw [List.mapM_cons] at h
    cases hfa : f x with
    | error e' =>
      rw [hfa] at h
      simp only [Bind.bind, Except.bind, Except.error.injEq] at h
      subst h
      exact ⟨x, by simp, hfa⟩
    | ok b =>
      rw [hfa] at h
      cases hml : l.mapM f with
      | error e' =>
        rw [hml] at h
        simp only [Bind.bind, Except.bind, Except.error.injEq] at h
        subst h
        obtain ⟨a, ha, hae⟩ := ih e' hml
        exact ⟨a, by simp [ha], hae⟩
      | ok bs =>
        rw [hml] at h
        exact absurd h (by simp [Bind.bind, Except.bind, pure, Except.pure])

/-- `enumFrom`, filtered on indices other than `bc`, projected back to
the elements, is an `eraseIdx`. -/
theorem enumFrom_filter_ne_map {α : Type} (bc : Nat) :
    ∀ (l : List α) (k : Nat),
      ((l.enumFrom k).filter (fun p => p.1 ≠ bc)).map (·.2)
        = if bc < k then l else l.eraseIdx (bc - k) := by
  intro l
  induction l with
  | nil => intro k; simp
  | cons a l ih =>
    intro k
    rw [List.enumFrom_cons, List.filter_cons]
    rcases Nat.lt_trichotomy k bc with hlt | heq | hgt
    · rw [if_pos (by simp; omega), List.map_cons, ih (k + 1), if_neg (by omega),
        if_neg (by omega)]
      obtain ⟨j, hj⟩ : ∃ j, bc - k = j + 1 := ⟨bc - k - 1, by omega⟩
      rw [hj, show bc - (k + 1) = j from by omega]
      rfl
    · subst heq
      rw [if_neg (by simp), ih (k + 1), if_pos (by omega), if_neg (by omega),
        show k - k = 0 from by omega]
      rfl
    · rw [if_pos (by simp; omega), List.map_cons, ih (k + 1), if_pos (by omega),
        if_pos (by omega)]

/-- The blob-dropping comprehension is `eraseIdx` at the blob column. -/
theorem dropBlobRow_eq_eraseIdx (bc : Nat) (row : List SqlValue) :
    dropBlobRow bc row = row.eraseIdx bc := by
  have h0 := enumFrom_filter_ne_map bc row 0
  simp only [Nat.not_lt_zero, if_false, Nat.sub_zero] at h0
  simpa [dropBlobRow, List.enum] using h0

/-- Per-field view of the blob-retaining comprehension: the blob field is
base64-encoded (as text), every other field passes through. -/
theorem encodeBlobRow_get (bc : Nat) (row row' : List SqlValue)
    (h : encodeBlobRow bc row = .ok row') (j : Nat) (v : SqlValue)
    (hv : row.get? j = some v) :
    (j ≠ bc → row'.get? j = some v) ∧
    (j = bc → ∃ s, pyB64encode v = .ok s ∧ row'.get? j = some (.textV s)) := by
  have henum : row.enum.get? j = some (j, v) := by
    have := List.getElem?_enum row j
    simp only [List.enum, List.get?_eq_getElem?] at *
    rw [this, hv]
    rfl
  obtain ⟨b, hb, hb'⟩ := mapM_ok_get _ row.enum row' h j (j, v) henum
  constructor
  · intro hj
    rw [if_neg hj] at hb
    simp only [Except.ok.injEq] at hb
    subst hb
    exact hb'
  · intro hj
    rw [if_pos hj] at hb
    cases hpv : pyB64encode v with
    | error e => rw [hpv] at hb; exact absurd hb (by simp [Except.map])
    | ok s =>
      rw [hpv] at hb
      simp only [Except.map, Except.ok.injEq] at hb
      subst hb
      exact ⟨s, rfl, hb'⟩

/-- The blob-retaining comprehension preserves the row's length. -/
theorem encodeBlobRow_length (bc : Nat) (row row' : List SqlValue)
    (h : encodeBlobRow bc row = .ok row') : row'.length = row.length := by
  have := mapM_ok_length _ row.enum row' h
  simpa using this

/-- NULL substitution, per field. -/
theorem nullConvertRow_get (row : List SqlValue) (j : Nat) (v : SqlValue)
    (hv : row.get? j = some v) :
    (nullConvertRow row).get? j = some (if v = .null then NULL_CONVERT else pyStr v) := by
  simp only [nullConvertRow, List.get?_eq_getElem?, List.getElem?_map] at *
  rw [hv]
  rfl

/-- Every failure of `pyB64encode` is a `TypeError`. -/
theorem pyB64encode_error (v : SqlValue) (e : PyErr) (h : pyB64encode v = .error e) :
    e = .typeError := by
  cases v <;> simp [pyB64encode] at h <;> exact h.symm

/-- Every failure of the blob-retaining comprehension is a `TypeError`. -/
theorem encodeBlobRow_error (bc : Nat) (row : List SqlValue) (e : PyErr)
    (h : encodeBlobRow bc row = .error e) : e = .typeError := by
  obtain ⟨p, _, hp⟩ := mapM_error_mem _ row.enum e h
  by_cases hj : p.1 = bc
  · simp only [if_pos hj] at hp
    cases hpv : pyB64encode p.2 with
    | error e' =>
      rw [hpv] at hp
      simp only [Except.map, Except.error.injEq] at hp
      subst hp
      exact pyB64encode_error _ _ hpv
    | ok s => rw [hpv] at hp; simp [Except.map] at hp
  · simp [if_neg hj] at hp

/-- A successful `findIdx?` for a string-equality test locates that very
string. -/
theorem findIdx?_beq_get : ∀ (l : List String) (cn : String) (i : Nat),
    l.findIdx? (· == cn) = some i → i < l.length ∧ l.get? i = some cn := by
  intro l
  induction l with
  | nil => intro cn i h; simp at h
  | cons a l ih =>
    intro cn i h
    rw [List.findIdx?_cons] at h
    by_cases ha : a == cn
    · rw [if_pos ha] at h
      injection h with h
      subst h
      exact ⟨by simp, by simp [eq_of_beq ha]⟩
    · rw [if_neg ha, List.findIdx?_succ] at h
      cases hf : l.findIdx? (· == cn) with
      | none => rw [hf] at h; exact absurd h (by simp)
      | some j =>
        rw [hf] at h
        simp only [Option.map_some', Option.some.injEq] at h
        subst h
        obtain ⟨hlt, hget⟩ := ih cn j hf
        exact ⟨by simpa using hlt, by simpa using hget⟩

/-- A successful blob-column lookup names a real column: the registered
name sits in the header at the returned index. -/
theorem blobColumnOf_some (tableName : String) (cols : List String) (b : Nat)
    (h : blobColumnOf tableName cols = .ok (some b)) :
    ∃ cn, blobsLookup tableName = some cn ∧ b < cols.length ∧ cols.get? b = some cn := by
  unfold blobColumnOf at h
  split at h
  case h_2 => simp at h
  case h_1 cn hl =>
    split at h
    case h_2 => simp at h
    case h_1 i hf =>
      simp only [Except.ok.injEq, Option.some.injEq] at h
      subst h
      obtain ⟨hlt, hget⟩ := findIdx?_beq_get cols cn i hf
      exact ⟨cn, hl, hlt, hget⟩

/-- `blobColumnOf` returns `none` exactly for unregistered tables. -/
theorem blobColumnOf_none (tableName : String) (cols : List String)
    (h : blobColumnOf tableName cols = .ok none) : blobsLookup tableName = none := by
  unfold blobColumnOf at h
  split at h
  case h_2 hl => exact hl
  case h_1 cn hl =>
    split at h
    case h_1 i hf => exact absurd h (by simp)
    case h_2 => exact absurd h (by simp)

/-- Unfold a successful `filterRows` into its two stages. -/
theorem filterRows_ok_elim (bc : Option Nat) (kb : Bool) (rows : List (List SqlValue))
    (table : List (List String)) (h : filterRows bc kb rows = .ok table) :
    ∃ rows1, blobPhase bc kb rows = .ok rows1 ∧ table = rows1.map nullConvertRow := by
  unfold filterRows at h
  cases hb : blobPhase bc kb rows with
  | error e => rw [hb] at h; exact absurd h (by simp [Except.map])
  | ok rows1 =>
    rw [hb] at h
    simp only [Except.map, Except.ok.injEq] at h
    exact ⟨rows1, rfl, h.symm⟩

/-- The blob-dropping stage, rewritten through `eraseIdx`. -/
theorem blobPhase_drop (b : Nat) (rows : List (List SqlValue)) :
    blobPhase (some b) false rows = .ok (rows.map (·.eraseIdx b)) := by
  unfold blobPhase
  simp only [if_neg (by simp : ¬ (false = true))]
  congr 1
  exact List.map_congr_left (fun r _ => dropBlobRow_eq_eraseIdx b r)

/-- `nullConvertRow` preserves the row's length. -/
theorem nullConvertRow_length (r : List SqlValue) : (nullConvertRow r).length = r.length := by
  simp [nullConvertRow]

/-- The read-back row comparison succeeds on equal tables. -/
theorem checkRows_refl : ∀ t : List (List String), checkRows t t = .ok ()
  | [] => rfl
  | r :: rs => by simp [checkRows, checkRows_refl rs]

/-- Every transformed row is exactly as wide as the computed header
(given that the raw rows are as wide as the column list). -/
theorem filterRows_length (tableName : String) (cols : List String)
    (rows : List (List SqlValue)) (kb : Bool) (bc : Option Nat)
    (table : List (List String))
    (hbc : blobColumnOf tableName cols = .ok bc)
    (hfr : filterRows bc kb rows = .ok table)
    (harity : ∀ r ∈ rows, r.length = cols.length) :
    ∀ tr ∈ table, tr.length = (computeHeader cols bc kb).length := by
  obtain ⟨rows1, hb, rfl⟩ := filterRows_ok_elim bc kb rows table hfr
  intro tr htr
  simp only [List.mem_map] at htr
  obtain ⟨r1, hr1, rfl⟩ := htr
  rw [nullConvertRow_length]
  cases bc with
  | none =>
    simp only [blobPhase, Except.ok.injEq] at hb
    subst hb
    simpa [computeHeader] using harity r1 hr1
  | some b =>
    obtain ⟨cn, _, hblt, _⟩ := blobColumnOf_some tableName cols b hbc
    cases kb with
    | true =>
      simp only [blobPhase, if_pos rfl] at hb
      obtain ⟨i, hi⟩ := List.mem_iff_get?.mp hr1
      have hlen : rows1.length = rows.length := mapM_ok_length _ rows rows1 hb
      have hilt : i < rows.length := by
        rw [← hlen]
        exact (List.get?_eq_some.mp hi).1
      obtain ⟨r, hr⟩ : ∃ r, rows.get? i = some r := by
        rw [List.get?_eq_getElem?, List.getElem?_eq_getElem hilt]
        exact ⟨_, rfl⟩
      obtain ⟨r1', he, hr1'⟩ := mapM_ok_get _ rows rows1 hb i r hr
      rw [hi] at hr1'
      injection hr1' with heq
      subst heq
      rw [encodeBlobRow_length b r r1 he]
      have hmem : r ∈ rows := List.get?_mem hr
      simpa [computeHeader] using harity r hmem
    | false =>
      rw [blobPhase_drop] at hb
      simp only [Except.ok.injEq] at hb
      subst hb
      simp only [List.mem_map] at hr1
      obtain ⟨r, hr, rfl⟩ := hr1
      have hrlen : r.length = cols.length := harity r hr
      simp only [computeHeader, if_neg (by simp : ¬ (false = true))]
      rw [List.length_eraseIdx, List.length_eraseIdx, hrlen]

/-! ## The claims -/

/-- C1: For every exported table, parsing the CSV artifact just written
by the export reproduces, field-for-field, the in-memory transformed
rows and the computed header used to produce it — in particular for
tables with zero or one rows, fields with embedded delimiters, quotes or
newlines, and NULL-valued fields — and `convertTable`'s read-back
verification therefore succeeds and returns them (a mismatch would have
aborted with an error instead). -/
theorem claim1_roundtrip (tableName : String) (cols : List String)
    (rows : List (List SqlValue)) (keepBlobs : Bool) (bc : Option Nat)
    (table : List (List String))
    (hbc : blobColumnOf tableName cols = .ok bc)
    (hfr : filterRows bc keepBlobs rows = .ok table)
    (hne : computeHeader cols bc keepBlobs ≠ [])
    (harity : ∀ r ∈ rows, r.length = cols.length) :
    parseCSV (writeCSV (computeHeader cols bc keepBlobs :: table))
        = some (computeHeader cols bc keepBlobs :: table) ∧
    convertTable tableName cols rows keepBlobs
        = .ok (computeHeader cols bc keepBlobs, table,
               writeCSV (computeHeader cols bc keepBlobs :: table)) := by
  have hlens := filterRows_length tableName cols rows keepBlobs bc table hbc hfr harity
  have hnonempty : ∀ r ∈ computeHeader cols bc keepBlobs :: table, r ≠ [] := by
    intro r hr
    rcases List.mem_cons.mp hr with rfl | hmem
    · exact hne
    · intro hnil
      have hlen := hlens r hmem
      rw [hnil] at hlen
      simp only [List.length_nil] at hlen
      exact hne (List.eq_nil_of_length_eq_zero hlen.symm)
  have hrt := parseCSV_writeCSV (computeHeader cols bc keepBlobs :: table) hnonempty
  refine ⟨hrt, ?_⟩
  unfold convertTable
  rw [hbc]
  simp only [hfr, hrt, if_pos rfl, checkRows_refl]
  rw [if_pos trivial]

/-- Closed instance of C1: a two-row table with an embedded delimiter, an
embedded quote, an embedded newline and a NULL field round-trips, and the
export verifies and succeeds. -/
theorem claim1_roundtrip_witness :
    parseCSV (writeCSV (["a", "b"] ::
        [["x,y", ""], ["he said \"hi\"", "l1\nl2"]]))
        = some (["a", "b"] :: [["x,y", ""], ["he said \"hi\"", "l1\nl2"]]) ∧
    convertTable "T" ["a", "b"]
        [[.textV "x,y", .null], [.textV "he said \"hi\"", .textV "l1\nl2"]] false
        = .ok (["a", "b"], [["x,y", ""], ["he said \"hi\"", "l1\nl2"]],
               writeCSV (["a", "b"] :: [["x,y", ""], ["he said \"hi\"", "l1\nl2"]])) :=
  claim1_roundtrip "T" ["a", "b"]
    [[.textV "x,y", .null], [.textV "he said \"hi\"", .textV "l1\nl2"]] false none
    [["x,y", ""], ["he said \"hi\"", "l1\nl2"]] rfl rfl (by decide) (by decide)

/-- C2: For a table registered in the blob registry, exporting with
blobs retained keeps the full header (the blob column's name at its
original index), and in every data row the blob field is the base64 text
of the original bytes, which standard base64 decoding maps back to
exactly those bytes. -/
theorem claim2_blob_retention (tableName : String) (cols : List String) (b : Nat)
    (rows : List (List SqlValue)) (table : List (List String))
    (i : Nat) (r : List SqlValue) (bytes : List Nat)
    (hbc : blobColumnOf tableName cols = .ok (some b))
    (hfr : filterRows (some b) true rows = .ok table)
    (hrow : rows.get? i = some r)
    (hblob : r.get? b = some (.blobV bytes))
    (hbytes : ∀ x ∈ bytes, x < 256) :
    computeHeader cols (some b) true = cols ∧
    (∃ cn, blobsLookup tableName = some cn ∧ cols.get? b = some cn) ∧
    (∃ tr, table.get? i = some tr ∧
       tr.get? b = some (String.mk (b64encodeBytes bytes))) ∧
    b64decodeBytes (b64encodeBytes bytes) = some bytes := by
  obtain ⟨cn, hcn, _, hget⟩ := blobColumnOf_some tableName cols b hbc
  refine ⟨rfl, ⟨cn, hcn, hget⟩, ?_, b64decodeBytes_b64encodeBytes bytes hbytes⟩
  obtain ⟨rows1, hbp, rfl⟩ := filterRows_ok_elim (some b) true rows table hfr
  simp only [blobPhase, if_pos rfl] at hbp
  obtain ⟨r1, he, hr1⟩ := mapM_ok_get _ rows rows1 hbp i r hrow
  obtain ⟨s, hs, hsr⟩ := (encodeBlobRow_get b r r1 he b (.blobV bytes) hblob).2 rfl
  have hsv : s = String.mk (b64encodeBytes bytes) := by
    simpa [pyB64encode] using hs.symm
  subst hsv
  refine ⟨nullConvertRow r1, ?_, ?_⟩
  · rw [List.get?_eq_getElem?, List.getElem?_map]
    rw [List.get?_eq_getElem?] at hr1
    rw [hr1]
    rfl
  · have := nullConvertRow_get r1 b (.textV (String.mk (b64encodeBytes bytes))) hsr
    simpa using this

/-- Closed instance of C2: the registered `Categories` table, with a
one-row PNG-prefix blob, keeps `Picture` in the header and base64-encodes
and round-trips the bytes. -/
theorem claim2_blob_retention_witness :
    computeHeader ["CategoryID", "CategoryName", "Picture"] (some 2) true
        = ["CategoryID", "CategoryName", "Picture"] ∧
    (∃ cn, blobsLookup "Categories" = some cn ∧
       ["CategoryID", "CategoryName", "Picture"].get? 2 = some cn) ∧
    (∃ tr, ([["1", "Beverages", "iVBORw=="]] : List (List String)).get? 0 = some tr ∧
       tr.get? 2 = some (String.mk (b64encodeBytes [137, 80, 78, 71]))) ∧
    b64decodeBytes (b64encodeBytes [137, 80, 78, 71]) = some [137, 80, 78, 71] :=
  claim2_blob_retention "Categories" ["CategoryID", "CategoryName", "Picture"] 2
    [[.intV 1, .textV "Beverages", .blobV [137, 80, 78, 71]]]
    [["1", "Beverages", "iVBORw=="]] 0
    [.intV 1, .textV "Beverages", .blobV [137, 80, 78, 71]] [137, 80, 78, 71]
    rfl rfl rfl rfl (by decide)

/-- C3: For a registered table exported with blobs dropped, the header is
the column list with the blob column's name removed at its index, and
every transformed row is the raw row with the field at that index removed
(hence exactly one field shorter); for unregistered tables no column is
removed. -/
theorem claim3_blob_omission (tableName : String) (cols : List String)
    (rows : List (List SqlValue)) :
    (∀ b table, blobColumnOf tableName cols = .ok (some b) →
       filterRows (some b) false rows = .ok table →
       computeHeader cols (some b) false = cols.eraseIdx b ∧
       (∃ cn, blobsLookup tableName = some cn ∧ cols.get? b = some cn) ∧
       (∀ i r, rows.get? i = some r →
          table.get? i = some (nullConvertRow (r.eraseIdx b)) ∧
          (b < r.length → (nullConvertRow (r.eraseIdx b)).length + 1 = r.length))) ∧
    (∀ table, blobColumnOf tableName cols = .ok none →
       filterRows none false rows = .ok table →
       computeHeader cols none false = cols ∧
       blobsLookup tableName = none ∧
       (∀ i r, rows.get? i = some r →
          table.get? i = some (nullConvertRow r) ∧
          (nullConvertRow r).length = r.length)) := by
  constructor
  · intro b table hbc hfr
    obtain ⟨cn, hcn, _, hget⟩ := blobColumnOf_some tableName cols b hbc
    refine ⟨rfl, ⟨cn, hcn, hget⟩, ?_⟩
    intro i r hrow
    obtain ⟨rows1, hbp, rfl⟩ := filterRows_ok_elim (some b) false rows table hfr
    rw [blobPhase_drop] at hbp
    injection hbp with hbp
    subst hbp
    constructor
    · rw [List.get?_eq_getElem?, List.getElem?_map, List.getElem?_map]
      rw [List.get?_eq_getElem?] at hrow
      rw [hrow]
      rfl
    · intro hlt
      rw [nullConvertRow_length, List.length_eraseIdx, if_pos hlt]
      omega
  · intro table hbc hfr
    obtain ⟨rows1, hbp, rfl⟩ := filterRows_ok_elim none false rows table hfr
    simp only [blobPhase, Except.ok.injEq] at hbp
    subst hbp
    refine ⟨rfl, blobColumnOf_none tableName cols hbc, ?_⟩
    intro i r hrow
    refine ⟨?_, nullConvertRow_length r⟩
    rw [List.get?_eq_getElem?, List.getElem?_map]
    rw [List.get?_eq_getElem?] at hrow
    rw [hrow]
    rfl

/-- Closed instance of C3: dropping `Photo` from a registered two-column
`Employees` row removes exactly that field, and an unregistered table is
exported unchanged in shape. -/
theorem claim3_blob_omission_witness :
    (computeHeader ["EmployeeID", "Photo"] (some 1) false
        = ["EmployeeID", "Photo"].eraseIdx 1 ∧
     (∃ cn, blobsLookup "Employees" = some cn ∧
        ["EmployeeID", "Photo"].get? 1 = some cn) ∧
     (∀ i r, ([[.intV 7, .blobV [1, 2]]] : List (List SqlValue)).get? i = some r →
        ([["7"]] : List (List String)).get? i = some (nullConvertRow (r.eraseIdx 1)) ∧
        (1 < r.length → (nullConvertRow (r.eraseIdx 1)).length + 1 = r.length))) ∧
    (computeHeader ["X"] none false = ["X"] ∧
     blobsLookup "Orders" = none ∧
     (∀ i r, ([[.intV 3]] : List (List SqlValue)).get? i = some r →
        ([["3"]] : List (List String)).get? i = some (nullConvertRow r) ∧
        (nullConvertRow r).length = r.length)) :=
  ⟨(claim3_blob_omission "Employees" ["EmployeeID", "Photo"] [[.intV 7, .blobV [1, 2]]]).1
      1 [["7"]] rfl rfl,
   (claim3_blob_omission "Orders" ["X"] [[.intV 3]]).2 [["3"]] rfl rfl⟩

/-- C4: every retained field that is SQL NULL becomes the configured
placeholder (the default being the empty string), every other retained
non-blob field becomes its canonical string representation, in all three
blob configurations; with the default placeholder, a NULL field and an
originally-empty text field produce the same CSV field. -/
theorem claim4_null_substitution :
    NULL_CONVERT = "" ∧
    (∀ (kb : Bool) (rows : List (List SqlValue)) (table : List (List String))
        (i : Nat) (r : List SqlValue) (j : Nat) (v : SqlValue),
       filterRows none kb rows = .ok table →
       rows.get? i = some r → r.get? j = some v →
       ∃ tr, table.get? i = some tr ∧
         tr.get? j = some (if v = .null then NULL_CONVERT else pyStr v)) ∧
    (∀ (b : Nat) (rows : List (List SqlValue)) (table : List (List String))
        (i : Nat) (r : List SqlValue) (j : Nat) (v : SqlValue),
       filterRows (some b) true rows = .ok table →
       rows.get? i = some r → r.get? j = some v → j ≠ b →
       ∃ tr, table.get? i = some tr ∧
         tr.get? j = some (if v = .null then NULL_CONVERT else pyStr v)) ∧
    (∀ (b : Nat) (rows : List (List SqlValue)) (table : List (List String))
        (i : Nat) (r : List SqlValue) (j : Nat) (v : SqlValue),
       filterRows (some b) false rows = .ok table →
       rows.get? i = some r → (r.eraseIdx b).get? j = some v →
       ∃ tr, table.get? i = some tr ∧
         tr.get? j = some (if v = .null then NULL_CONVERT else pyStr v)) ∧
    (filterRows none false [[.null]] = .ok [[""]] ∧
     filterRows none false [[.textV ""]] = .ok [[""]]) := by
  refine ⟨rfl, ?_, ?_, ?_, rfl, rfl⟩
  · intro kb rows table i r j v hfr hrow hv
    obtain ⟨rows1, hbp, rfl⟩ := filterRows_ok_elim none kb rows table hfr
    simp only [blobPhase, Except.ok.injEq] at hbp
    subst hbp
    refine ⟨nullConvertRow r, ?_, nullConvertRow_get r j v hv⟩
    rw [List.get?_eq_getElem?, List.getElem?_map]
    rw [List.get?_eq_getElem?] at hrow
    rw [hrow]
    rfl
  · intro b rows table i r j v hfr hrow hv hj
    obtain ⟨rows1, hbp, rfl⟩ := filterRows_ok_elim (some b) true rows table hfr
    simp only [blobPhase, if_pos rfl] at hbp
    obtain ⟨r1, he, hr1⟩ := mapM_ok_get _ rows rows1 hbp i r hrow
    have hpass := (encodeBlobRow_get b r r1 he j v hv).1 hj
    refine ⟨nullConvertRow r1, ?_, nullConvertRow_get r1 j v hpass⟩
    rw [List.get?_eq_getElem?, List.getElem?_map]
    rw [List.get?_eq_getElem?] at hr1
    rw [hr1]
    rfl
  · intro b rows table i r j v hfr hrow hv
    obtain ⟨rows1, hbp, rfl⟩ := filterRows_ok_elim (some b) false rows table hfr
    rw [blobPhase_drop] at hbp
    injection hbp with hbp
    subst hbp
    refine ⟨nullConvertRow (r.eraseIdx b), ?_, nullConvertRow_get _ j v hv⟩
    rw [List.get?_eq_getElem?, List.getElem?_map, List.getElem?_map]
    rw [List.get?_eq_getElem?] at hrow
    rw [hrow]
    rfl

/-- Closed instance of C4: a NULL field becomes the empty placeholder
and an integer field becomes its decimal string. -/
theorem claim4_null_substitution_witness :
    (∃ tr, ([["", "5"]] : List (List String)).get? 0 = some tr ∧
       tr.get? 0 = some (if (SqlValue.null = SqlValue.null) then NULL_CONVERT
                         else pyStr .null)) ∧
    (∃ tr, ([["", "5"]] : List (List String)).get? 0 = some tr ∧
       tr.get? 1 = some (if (SqlValue.intV 5 = SqlValue.null) then NULL_CONVERT
                         else pyStr (.intV 5))) :=
  ⟨claim4_null_substitution.2.1 false [[.null, .intV 5]] [["", "5"]] 0
      [.null, .intV 5] 0 .null rfl rfl rfl,
   claim4_null_substitution.2.1 false [[.null, .intV 5]] [["", "5"]] 0
      [.null, .intV 5] 1 (.intV 5) rfl rfl rfl⟩

/-- C5: For every export, with blobs retained or dropped, the written
header row has exactly as many fields as every written data row, given
that each raw row has one field per column of the query result. -/
theorem claim5_cardinality (tableName : String) (cols : List String)
    (rows : List (List SqlValue)) (keepBlobs : Bool) (bc : Option Nat)
    (table : List (List String))
    (hbc : blobColumnOf tableName cols = .ok bc)
    (hfr : filterRows bc keepBlobs rows = .ok table)
    (harity : ∀ r ∈ rows, r.length = cols.length) :
    ∀ tr ∈ table, tr.length = (computeHeader cols bc keepBlobs).length :=
  filterRows_length tableName cols rows keepBlobs bc table hbc hfr harity

/-- Closed instance of C5: with `Picture` dropped, the two-field row is
as wide as the two-name header. -/
theorem claim5_cardinality_witness :
    (["1", "Beverages"] : List String).length
      = (computeHeader ["CategoryID", "CategoryName", "Picture"] (some 2) false).length :=
  claim5_cardinality "Categories" ["CategoryID", "CategoryName", "Picture"]
    [[.intV 1, .textV "Beverages", .blobV [1]]] false (some 2) [["1", "Beverages"]]
    rfl rfl (by decide) ["1", "Beverages"] (by decide)

/-- C6: the Fetcher is idempotent: when the destination file already
exists, `downloadNorthwind` issues no network request and leaves the file
exactly as it was — a second run with the same destination never
re-downloads. -/
theorem claim6_idempotent (d : DirState) (content : List Nat) (resp : Response)
    (unlinkDenied : Bool) :
    (downloadNorthwind d (some content) resp unlinkDenied).netCalls = 0 ∧
    (downloadNorthwind d (some content) resp unlinkDenied).file = some content := by
  unfold downloadNorthwind
  split
  · exact ⟨rfl, rfl⟩
  · split
    · exact ⟨rfl, rfl⟩
    · split
      · simp at *
      · exact ⟨rfl, rfl⟩

/-- C7: when an error (including cancellation) strikes mid-stream after
the destination has been opened, the original error propagates; the
partial file is deleted when deletion is possible, and a denied deletion
is only logged as a warning (the error still propagates and the partial
file remains). -/
theorem claim7_failure_cleanup (resp : Response) (e : PyErr) (init : Option (List Nat))
    (unlinkDenied : Bool) (hstatus : resp.status = 200)
    (herr : resp.streamErr = some e) :
    (download resp unlinkDenied init).err = some e ∧
    (unlinkDenied = false → (download resp unlinkDenied init).file = none) ∧
    (unlinkDenied = true → (download resp unlinkDenied init).warnings ≠ []) := by
  unfold download
  rw [if_neg (by simp [hstatus]), herr]
  cases unlinkDenied with
  | false => exact ⟨rfl, fun _ => rfl, fun h => by simp at h⟩
  | true => exact ⟨rfl, fun h => by simp at h, fun _ => by simp⟩

/-- Closed instance of C7: a stream failing after one chunk propagates
the error and leaves no file. -/
theorem claim7_failure_cleanup_witness :
    (download ⟨200, 10, [[1, 2]], some .runtimeError⟩ false none).err
        = some .runtimeError ∧
    (false = false →
       (download ⟨200, 10, [[1, 2]], some .runtimeError⟩ false none).file = none) ∧
    (false = true →
       (download ⟨200, 10, [[1, 2]], some .runtimeError⟩ false none).warnings ≠ []) :=
  claim7_failure_cleanup ⟨200, 10, [[1, 2]], some .runtimeError⟩ .runtimeError none
    false rfl rfl

/-- C8: a non-success HTTP status aborts the download with an error
before any bytes are written: the destination file is neither created nor
modified. -/
theorem claim8_bad_status (resp : Response) (unlinkDenied : Bool)
    (init : Option (List Nat)) (h : resp.status ≠ 200) :
    download resp unlinkDenied init
      = { err := some .runtimeError, file := init, warnings := [], netCalls := 1 } := by
  unfold download
  rw [if_pos (by simpa using h)]

/-- Closed instance of C8: a 404 response leaves a missing destination
missing and raises. -/
theorem claim8_bad_status_witness :
    download ⟨404, 0, [], none⟩ false none
      = { err := some .runtimeError, file := none, warnings := [], netCalls := 1 } :=
  claim8_bad_status ⟨404, 0, [], none⟩ false none (by decide)

/-- C9: the driver performs exactly these exports: every enumerated table
whose name lacks the reserved `sqlite_` prefix, with blobs dropped, to
`<name lower-cased>.csv`; and additionally every blob-registry table,
with blobs retained, to `<name lower-cased>_base64.csv` — nothing else. -/
theorem claim9_driver (tables : List String) (t p : String) (kb : Bool) :
    (t, p, kb) ∈ mainExports tables ↔
      (t ∈ tables ∧ t.startsWith "sqlite_" = false ∧ p = t.toLower ++ ".csv" ∧ kb = false)
      ∨ (t ∈ BLOBS.map (·.1) ∧ p = t.toLower ++ "_base64.csv" ∧ kb = true) := by
  unfold mainExports
  rw [List.mem_append]
  constructor
  · intro h
    rcases h with h | h
    · left
      simp only [List.mem_map, List.mem_filter] at h
      obtain ⟨t', ⟨ht', hpre⟩, heq⟩ := h
      injection heq with h1 h2
      injection h2 with h2 h3
      subst h1
      exact ⟨ht', by simpa using hpre, h2.symm, h3.symm⟩
    · right
      simp only [List.mem_map] at h
      obtain ⟨pr, hpr, heq⟩ := h
      injection heq with h1 h2
      injection h2 with h2 h3
      subst h1
      exact ⟨List.mem_map.mpr ⟨pr, hpr, rfl⟩, h2.symm, h3.symm⟩
  · intro h
    rcases h with ⟨ht, hpre, rfl, rfl⟩ | ⟨ht, rfl, rfl⟩
    · left
      exact List.mem_map.mpr ⟨t, List.mem_filter.mpr ⟨ht, by simp [hpre]⟩, rfl⟩
    · right
      obtain ⟨pr, hpr, rfl⟩ := List.mem_map.mp ht
      exact List.mem_map.mpr ⟨pr, hpr, rfl⟩

/-- C10 (implicit): base64 encoding is applied to a retained blob field
before NULL substitution, so a SQL NULL in the blob column makes the
blob-retaining export raise `TypeError` instead of writing the
placeholder; conversely a successful blob-retaining export certifies
that every row carried a real binary value in the blob column. -/
theorem claim10_null_blob :
    (∀ (b : Nat) (rows : List (List SqlValue)) (i : Nat) (r : List SqlValue),
       rows.get? i = some r → r.get? b = some .null →
       filterRows (some b) true rows = .error .typeError) ∧
    (∀ (b : Nat) (rows : List (List SqlValue)) (table : List (List String)),
       filterRows (some b) true rows = .ok table →
       ∀ r ∈ rows, ∀ v, r.get? b = some v → ∃ bytes, v = .blobV bytes) := by
  constructor
  · intro b rows i r hrow hnull
    cases hm : rows.mapM (encodeBlobRow b) with
    | ok rows1 =>
      obtain ⟨r1, he, _⟩ := mapM_ok_get _ rows rows1 hm i r hrow
      obtain ⟨s, hs, _⟩ := (encodeBlobRow_get b r r1 he b .null hnull).2 rfl
      exact absurd hs (by simp [pyB64encode])
    | error e =>
      obtain ⟨r', hr', he'⟩ := mapM_error_mem _ rows e hm
      have : e = .typeError := encodeBlobRow_error b r' e he'
      subst this
      simp only [filterRows, blobPhase, if_pos rfl, hm]
      rfl
  · intro b rows table hfr r hr v hv
    obtain ⟨rows1, hbp, _⟩ := filterRows_ok_elim (some b) true rows table hfr
    simp only [blobPhase, if_pos rfl] at hbp
    obtain ⟨i, hi⟩ := List.mem_iff_get?.mp hr
    obtain ⟨r1, he, _⟩ := mapM_ok_get _ rows rows1 hbp i r hi
    obtain ⟨s, hs, _⟩ := (encodeBlobRow_get b r r1 he b v hv).2 rfl
    cases v with
    | blobV bytes => exact ⟨bytes, rfl⟩
    | null => exact absurd hs (by simp [pyB64encode])
    | intV k => exact absurd hs (by simp [pyB64encode])
    | textV s' => exact absurd hs (by simp [pyB64encode])

/-- Closed instance of C10: a single row whose blob column is NULL makes
the blob-retaining transform raise `TypeError`. -/
theorem claim10_null_blob_witness :
    filterRows (some 0) true [[SqlValue.null]] = .error .typeError :=
  claim10_null_blob.1 0 [[.null]] 0 [.null] rfl rfl

end Northwind
